import Mathlib

/-!
Verification of the dbt column-lineage harvester (`metadata_api.py`,
`get_lineage.py`) against its natural-language specification.

The Python code is shallowly embedded: JSON values become an inductive
`Json` type, `dict.get` / `d[k]` / `in` / truthiness are modelled with the
corresponding Python semantics, fallible code returns `Except String`,
and pandas DataFrames are modelled as lists of row records (a DataFrame
built from a list of uniform dicts is exactly that, in row order).
-/

set_option autoImplicit false

namespace Harvester

/-- JSON values as decoded by `response.json()`.  Numbers are modelled as
integers (no float appears in any claim); objects are key-value lists in
insertion order, keys unique, as for Python dicts. -/
inductive Json where
  | null
  | bool (b : Bool)
  | str (s : String)
  | num (n : Int)
  | arr (elems : List Json)
  | obj (fields : List (String × Json))

mutual

/-- Structural equality on JSON values, as Python `==` compares decoded
JSON data. -/
def Json.beq : Json → Json → Bool
  | .null, .null => true
  | .bool a, .bool b => a == b
  | .str a, .str b => a == b
  | .num a, .num b => a == b
  | .arr a, .arr b => Json.beqList a b
  | .obj a, .obj b => Json.beqObj a b
  | _, _ => false

def Json.beqList : List Json → List Json → Bool
  | [], [] => true
  | a :: as, b :: bs => Json.beq a b && Json.beqList as bs
  | _, _ => false

def Json.beqObj : List (String × Json) → List (String × Json) → Bool
  | [], [] => true
  | (k1, v1) :: as, (k2, v2) :: bs => k1 == k2 && Json.beq v1 v2 && Json.beqObj as bs
  | _, _ => false

end

instance : BEq Json := ⟨Json.beq⟩

/-- Python truthiness (`bool(x)`) for JSON values: `None`, `False`, `""`,
`0`, `[]`, and the empty dict are falsy. -/
def pyTruthy : Json → Bool
  | .null => false
  | .bool b => b
  | .str s => s != ""
  | .num n => n != 0
  | .arr elems => !elems.isEmpty
  | .obj fields => !fields.isEmpty

/-- Python `key in d` for a dict, `x in l` for a list; anything else is a
`TypeError` (string membership is a substring test, never reached by the
dict-shaped inputs of this program). -/
def pyContains (j : Json) (k : String) : Except String Bool :=
  match j with
  | .obj fields => .ok (fields.any (fun kv => kv.1 == k))
  | .arr elems => .ok (elems.contains (.str k))
  | _ => .error "TypeError: argument not a container"

/-- Python `d[k]`: `KeyError` when the key is absent, `TypeError` when the
value is not a dict (list indices are integers, so a string index on a
list is also a `TypeError`). -/
def pyIndex (j : Json) (k : String) : Except String Json :=
  match j with
  | .obj fields =>
    match List.lookup k fields with
    | some v => .ok v
    | none => .error ("KeyError: " ++ k)
  | _ => .error "TypeError: value is not subscriptable by a string"

/-- Python `d.get(k)` on a known dict (missing keys give `None`). -/
def objGet (fields : List (String × Json)) (k : String) : Json :=
  (List.lookup k fields).getD .null

/-- Python `d.get(k, dflt)` on a known dict. -/
def objGetD (fields : List (String × Json)) (k : String) (dflt : Json) : Json :=
  (List.lookup k fields).getD dflt

/-- A Python `for` loop that builds a list and can raise: process the
elements left to right, the first raised exception propagates. -/
def mapExcept {α β : Type} (f : α → Except String β) : List α → Except String (List β)
  | [] => .ok []
  | a :: as => do
    let b ← f a
    let bs ← mapExcept f as
    .ok (b :: bs)

/-- Matching a literal character sequence at the head of the input, as the
regex engine does for `model\.`: returns the remainder on success. -/
def dropLit : List Char → List Char → Option (List Char)
  | [], cs => some cs
  | p :: ps, c :: cs => if c = p then dropLit ps cs else none
  | _ :: _, [] => none

/-- The group part of the regex, applied to the input after the literal
`model.`: group 1 is the maximal run of non-dot characters (`[^.]+`,
nonempty), then the dot (the head of the `dropWhile` remainder, when
present, is necessarily the first character failing `c != '.'`), then
group 2, another maximal nonempty run of non-dot characters. -/
def regexGroups (rest : List Char) : Option (List Char × List Char) :=
  let pkg := rest.takeWhile (fun c => c != '.')
  match rest.dropWhile (fun c => c != '.') with
  | c :: rest2 =>
    if c = '.' then
      let name := rest2.takeWhile (fun c => c != '.')
      if pkg.isEmpty || name.isEmpty then none
      else some (pkg, name)
    else none
  | [] => none

/-- `re.match(r'model\.([^.]+)\.([^.]+)', s)` on the character list of
`s`: the literal `model.`, then the two groups.  `re.match` anchors only
at the start, so trailing characters after group 2 are ignored. -/
def regexModelMatch (cs : List Char) : Option (List Char × List Char) :=
  match dropLit "model.".toList cs with
  | none => none
  | some rest => regexGroups rest

/-- Python `s.startswith(pre)`. -/
def pyStartsWith (s pre : String) : Bool :=
  List.isPrefixOf pre.toList s.toList

/-- ASCII lowercasing of one character. -/
def asciiLowerChar (c : Char) : Char :=
  if 65 ≤ c.toNat ∧ c.toNat ≤ 90 then Char.ofNat (c.toNat + 32) else c

/-- Python `s.lower()` on the ASCII range (Unicode case mapping beyond
ASCII is not modelled; the column names of this service are ASCII). -/
def pyLower (s : String) : String :=
  String.mk (s.toList.map asciiLowerChar)

/-- `DbtMetadataApiClient.extract_parent_model_name`: if `parent_id` starts
with `model.`, match the regex and format the two groups as
`package.model_name`; otherwise (or when the regex fails) return `None`. -/
def extract_parent_model_name (parent_id : String) : Option String :=
  if pyStartsWith parent_id "model." then
    match regexModelMatch parent_id.toList with
    | some (pkg, name) => some (String.mk pkg ++ "." ++ String.mk name)
    | none => none
  else none

/-- The list comprehension
`[f(pid) for pid in parent_ids if f(pid)]` with
`f = extract_parent_model_name`, applied to the value of
`model.get("parentIds", [])`.  Iterating a non-list raises; calling
`.startswith` on a non-string element raises `AttributeError`.  The guard
is Python truthiness of the `Optional[str]` result: `None` and `""` are
dropped. -/
def recognized_parents (parent_ids : Json) : Except String (List String) :=
  match parent_ids with
  | .arr elems => do
    let ids ← mapExcept (fun p =>
      match p with
      | .str s => Except.ok s
      | _ => Except.error "AttributeError: startswith on a non-string") elems
    .ok (ids.filterMap (fun s =>
      match extract_parent_model_name s with
      | some n => if n = "" then none else some n
      | none => none))
  | _ => .error "TypeError: parentIds value is not iterable"

/-- One row of the model-lineage DataFrame, in the exact field order the
`row_data` dict is built in `parse_model_lineage_to_df`. -/
structure ModelRow where
  project_id : Json
  database : Json
  schema : Json
  name : Json
  node_id : Json
  tags : Json
  resource_type : Json
  materialization : Json
  access : Json
  group : Json
  version : Json
  parent_ids : Json
  public_parent_ids : Json
  /-- `parent_1` .. `parent_10`, positionally: entry `i` holds `parent_(i+1)`. -/
  parent_cols : List (Option String)

/-- The loop body of `parse_model_lineage_to_df`: build `row_data` for one
lineage entry.  `.get` on a non-dict raises `AttributeError`. -/
def parse_model_item (model : Json) : Except String ModelRow :=
  match model with
  | .obj fields => do
    let model_parents ← recognized_parents (objGetD fields "parentIds" (.arr []))
    .ok {
      project_id := objGet fields "projectId"
      database := objGet fields "database"
      schema := objGet fields "schema"
      name := objGet fields "name"
      node_id := objGet fields "uniqueId"
      tags := objGet fields "tags"
      resource_type := objGet fields "resourceType"
      materialization := objGet fields "materializationType"
      access := objGet fields "access"
      group := objGet fields "group"
      version := objGet fields "version"
      parent_ids := objGet fields "parentIds"
      public_parent_ids := objGet fields "publicParentIds"
      parent_cols := (List.range 10).map (fun i => model_parents[i]?)
    }
  | _ => .error "AttributeError: get on a non-dict lineage entry"

/-- The guard
`not response_data or "data" not in response_data or key not in response_data["data"]`
shared by both parsers (with `key = "environment"` resp. `"column"`),
including its left-to-right short-circuit evaluation. -/
def guardMissing (response_data : Json) (key : String) : Except String Bool :=
  if !pyTruthy response_data then .ok true
  else do
    let hasData ← pyContains response_data "data"
    if !hasData then .ok true
    else do
      let d ← pyIndex response_data "data"
      let hasKey ← pyContains d key
      .ok (!hasKey)

/-- `DbtMetadataApiClient.parse_model_lineage_to_df`.  After the guard, the
code indexes `["data"]["environment"]["definition"]["lineage"]` directly
(raising `KeyError` when `definition` or `lineage` is absent) and
iterates the lineage list, producing one row per entry. -/
def parse_model_lineage_to_df (response_data : Json) : Except String (List ModelRow) := do
  let missing ← guardMissing response_data "environment"
  if missing then .ok []
  else do
    let d ← pyIndex response_data "data"
    let env ← pyIndex d "environment"
    let dfn ← pyIndex env "definition"
    let lineage_data ← pyIndex dfn "lineage"
    match lineage_data with
    | .arr entries => mapExcept parse_model_item entries
    | _ => .error "TypeError: lineage value is not iterable"

/-- One row of the column-lineage DataFrame, in the exact field order the
`row_data` dict is built in `parse_column_lineage_to_df`. -/
structure ColumnRow where
  project_id : Json
  node_id : Json
  column_node_id : Json
  /-- `item.get("name").lower()` — a `String`, since `.lower()` on anything
  else raises before the row is built. -/
  column_name : String
  description : Json
  is_primary_key : Json
  transformation_type : Json
  description_origin_column_name : Json
  description_origin_resource_unique_id : Json
  relationship : Json
  parent_columns : Json
  /-- `item.get("ChildColumns")` — note the capital C, while the GraphQL
  query requests `childColumns`. -/
  child_columns : Json
  /-- `parent_column_1` .. `parent_column_10`, positionally. -/
  parent_column_cols : List (Option Json)

/-- The loop body of `parse_column_lineage_to_df`: build `row_data` for one
lineage entry.  `item.get("name").lower()` raises `AttributeError` when
`name` is absent (giving `None`) or not a string; the fan-out needs
`len`/indexing on `item.get("parentColumns", [])`, so a present non-list
value there raises as well. -/
def parse_column_item (item : Json) : Except String ColumnRow :=
  match item with
  | .obj fields => do
    let column_name ←
      match objGet fields "name" with
      | .str s => Except.ok (pyLower s)
      | _ => Except.error "AttributeError: lower on a non-string name"
    let parent_columns_list ←
      match objGetD fields "parentColumns" (.arr []) with
      | .arr elems => Except.ok elems
      | _ => Except.error "TypeError: parentColumns value has no len"
    .ok {
      project_id := objGet fields "projectId"
      node_id := objGet fields "nodeUniqueId"
      column_node_id := objGet fields "uniqueId"
      column_name := column_name
      description := objGet fields "description"
      is_primary_key := objGet fields "isPrimaryKey"
      transformation_type := objGet fields "transformationType"
      description_origin_column_name := objGet fields "descriptionOriginColumnName"
      description_origin_resource_unique_id :=
        objGet fields "descriptionOriginResourceUniqueId"
      relationship := objGet fields "relationship"
      parent_columns := objGet fields "parentColumns"
      child_columns := objGet fields "ChildColumns"
      parent_column_cols := (List.range 10).map (fun i => parent_columns_list[i]?)
    }
  | _ => .error "AttributeError: get on a non-dict lineage entry"

/-- `DbtMetadataApiClient.parse_column_lineage_to_df`.  Same guard shape as
the model parser, with `"column"` in place of `"environment"`; then
indexes `["data"]["column"]["lineage"]` and emits one row per entry. -/
def parse_column_lineage_to_df (response_data : Json) : Except String (List ColumnRow) := do
  let missing ← guardMissing response_data "column"
  if missing then .ok []
  else do
    let d ← pyIndex response_data "data"
    let col ← pyIndex d "column"
    let lineage_data ← pyIndex col "lineage"
    match lineage_data with
    | .arr entries => mapExcept parse_column_item entries
    | _ => .error "TypeError: lineage value is not iterable"

/-- One hexadecimal digit, lowercase, as Python's `\uXXXX` escapes use. -/
def hexDigit (n : Nat) : Char :=
  if n < 10 then Char.ofNat (48 + n) else Char.ofNat (87 + n)

/-- Four-digit lowercase hex of `n < 65536`. -/
def hex4 (n : Nat) : String :=
  String.mk [hexDigit (n / 4096 % 16), hexDigit (n / 256 % 16),
    hexDigit (n / 16 % 16), hexDigit (n % 16)]

/-- `json.dumps` escaping of one character inside a string literal
(default `ensure_ascii=True`): backslash, quote, the short control
escapes, `\uXXXX` for other characters outside `0x20..0x7e`, surrogate
pairs above the BMP. -/
def escapeJsonChar (c : Char) : String :=
  if c = '"' then "\\\""
  else if c = '\\' then "\\\\"
  else if c = Char.ofNat 8 then "\\b"
  else if c = Char.ofNat 9 then "\\t"
  else if c = Char.ofNat 10 then "\\n"
  else if c = Char.ofNat 12 then "\\f"
  else if c = Char.ofNat 13 then "\\r"
  else if c.toNat < 32 || c.toNat > 126 then
    if c.toNat < 65536 then "\\u" ++ hex4 c.toNat
    else
      let v := c.toNat - 65536
      "\\u" ++ hex4 (55296 + v / 1024) ++ "\\u" ++ hex4 (56320 + v % 1024)
  else String.singleton c

/-- Serialization of one JSON string literal, with escaping. -/
def dumpStr (s : String) : String :=
  "\"" ++ String.join (s.toList.map escapeJsonChar) ++ "\""

mutual

/-- `json.dumps(value)` with default options: `", "` and `": "`
separators, `ensure_ascii=True`.  Numbers are the integers of `Json.num`
(no float occurs in this program's variable values). -/
def jsonDumps : Json → String
  | .null => "null"
  | .bool true => "true"
  | .bool false => "false"
  | .str s => dumpStr s
  | .num n => toString n
  | .arr elems => "[" ++ jsonDumpsList elems ++ "]"
  | .obj fields => "\x7b" ++ jsonDumpsObj fields ++ "\x7d"

def jsonDumpsList : List Json → String
  | [] => ""
  | [j] => jsonDumps j
  | j :: rest => jsonDumps j ++ ", " ++ jsonDumpsList rest

def jsonDumpsObj : List (String × Json) → String
  | [] => ""
  | [(k, v)] => dumpStr k ++ ": " ++ jsonDumps v
  | (k, v) :: rest => dumpStr k ++ ": " ++ jsonDumps v ++ ", " ++ jsonDumpsObj rest

end

/-- Left-to-right non-overlapping replacement of the nonempty pattern
`o :: os` in a character list, as Python `str.replace` scans.  The fuel
argument (instantiated with the input length) only makes the recursion
structural: every step consumes at least one character, so the
fuel-exhausted branch is never reached. -/
def replaceFromAux (o : Char) (os new : List Char) : Nat → List Char → List Char
  | _, [] => []
  | 0, cs => cs
  | fuel + 1, c :: cs =>
    if (o :: os).isPrefixOf (c :: cs) then
      new ++ replaceFromAux o os new fuel (cs.drop os.length)
    else
      c :: replaceFromAux o os new fuel cs

def replaceFrom (o : Char) (os new cs : List Char) : List Char :=
  replaceFromAux o os new cs.length cs

/-- Python `s.replace(old, new)` (all occurrences, left to right,
non-overlapping; an empty pattern inserts `new` around every
character). -/
def strReplace (s old new : String) : String :=
  match old.toList with
  | [] => new ++ String.join (s.toList.map (fun c => String.singleton c ++ new))
  | o :: os => String.mk (replaceFrom o os new.toList s.toList)

/-- Python dict union `a | b`: keys of `a` in order, values overridden by
`b` where both have the key, then the keys only in `b`, in `b`'s order. -/
def dictMerge (a b : List (String × Json)) : List (String × Json) :=
  a.map (fun kv => (kv.1, (List.lookup kv.1 b).getD kv.2)) ++
    b.filter (fun kv => !(a.any (fun kv2 => kv2.1 == kv.1)))

/-- The substitution phase of `DbtMetadataApiClient.execute_query`: merge
the caller's variables with `{"environmentId": f"{env_id}"}` (the merge
also covers the code's falsy-`variables` branch, since merging an empty
dict is the identity), then, iterating the merged dict in insertion
order, replace every occurrence of `$key` in the query text by
`json.dumps(value)`. -/
def build_query (env_id : String) (query : String)
    (vars : Option (List (String × Json))) : String :=
  let env := [("environmentId", Json.str env_id)]
  let merged := match vars with
    | some v => dictMerge v env
    | none => env
  merged.foldl (fun q kv => strReplace q ("$" ++ kv.1) (jsonDumps kv.2)) query

/-- The decoded outcome of `requests.post`: HTTP status code, the decoded
JSON body (`response.json()`), and the raw text (`response.text`, used
only for logging). -/
structure HttpResponse where
  status_code : Nat
  body : Json
  text : String

/-- `DbtMetadataApiClient.execute_query`: substitute variables into the
query text, POST it (`transport` maps the final query text to the HTTP
response), and return the decoded body when the status code is exactly
200, an empty dict otherwise (the status code and body text are printed,
not raised; logging is not modelled). -/
def execute_query (env_id : String) (query : String)
    (vars : Option (List (String × Json)))
    (transport : String → HttpResponse) : Json :=
  let response := transport (build_query env_id query vars)
  if response.status_code == 200 then response.body else Json.obj []

/-- One iteration's fetch-and-parse:
`parse_column_lineage_to_df(query_column_lineage(unique_id))`.  `fetch`
abstracts `query_column_lineage` (and the transport under it); a
`.error` models an exception raised inside the `try` block (e.g. a
`requests` connection error). -/
def fetchParse (fetch : Json → Except String Json) (node_id : Json) :
    Except String (List ColumnRow) := do
  let resp ← fetch node_id
  parse_column_lineage_to_df resp

/-- The `for _, model in model_df.iterrows()` loop of
`build_comprehensive_column_lineage`.  Returns the node identifiers for
which a column-lineage query was issued (in order) and the non-empty
per-model tables collected (in order).  Falsy `node_id` rows are skipped
(`if not unique_id: continue`); an exception during one model's
fetch/parse is caught and only logged. -/
def build_loop (fetch : Json → Except String Json) :
    List ModelRow → List Json × List (List ColumnRow)
  | [] => ([], [])
  | row :: rest =>
    if !pyTruthy row.node_id then build_loop fetch rest
    else
      match fetchParse fetch row.node_id with
      | .ok cols =>
        let next := build_loop fetch rest
        (row.node_id :: next.1, if cols.isEmpty then next.2 else cols :: next.2)
      | .error _ =>
        let next := build_loop fetch rest
        (row.node_id :: next.1, next.2)

/-- `DbtMetadataApiClient.build_comprehensive_column_lineage`, with the
model-lineage response and the column-lineage query function made
explicit.  Returns the issued query identifiers together with the final
concatenated table (`pd.concat` of the collected tables when any,
an empty DataFrame otherwise). -/
def build_comprehensive_column_lineage (model_response : Json)
    (fetch : Json → Except String Json) :
    Except String (List Json × List ColumnRow) := do
  let model_df ← parse_model_lineage_to_df model_response
  if model_df.isEmpty then .ok ([], [])
  else
    let result := build_loop fetch model_df
    .ok (result.1, result.2.flatten)

/-! ### Helper lemmas -/

theorem exceptBind_ok {α β : Type} (a : α) (f : α → Except String β) :
    (Except.ok a : Except String α) >>= f = f a := rfl

theorem exceptBind_error {α β : Type} (e : String) (f : α → Except String β) :
    (Except.error e : Except String α) >>= f = .error e := rfl

theorem mapExcept_ok_of_forall {α β : Type} (f : α → Except String β) (l : List α)
    (h : ∀ a ∈ l, ∃ b, f a = .ok b) :
    ∃ bs, mapExcept f l = .ok bs ∧ List.Forall₂ (fun a b => f a = .ok b) l bs := by
  induction l with
  | nil => exact ⟨[], rfl, .nil⟩
  | cons a as ih =>
    obtain ⟨b, hb⟩ := h a (List.mem_cons_self a as)
    obtain ⟨bs, hbs, hall⟩ := ih (fun x hx => h x (List.mem_cons_of_mem a hx))
    refine ⟨b :: bs, ?_, .cons hb hall⟩
    simp only [mapExcept, hb, hbs, exceptBind_ok]

theorem forall₂_mem_right {α β : Type} {R : α → β → Prop} {l : List α} {l2 : List β}
    (h : List.Forall₂ R l l2) : ∀ b ∈ l2, ∃ a ∈ l, R a b := by
  induction h with
  | nil => intro b hb; exact absurd hb (List.not_mem_nil b)
  | cons hr _ ih =>
    intro b hb
    rcases List.mem_cons.1 hb with hb1 | hb2
    · exact ⟨_, List.mem_cons_self _ _, hb1 ▸ hr⟩
    · obtain ⟨a, ha, har⟩ := ih b hb2
      exact ⟨a, List.mem_cons_of_mem _ ha, har⟩

theorem isEmpty_false_of_ne {α : Type} {l : List α} (h : l ≠ []) : l.isEmpty = false := by
  cases l with
  | nil => exact absurd rfl h
  | cons a as => rfl

theorem lookup_ne_nil {k : String} {l : List (String × Json)} {v : Json}
    (h : List.lookup k l = some v) : l ≠ [] := by
  intro he
  subst he
  exact Option.noConfusion h

theorem any_key_of_lookup {k : String} {l : List (String × Json)} {v : Json}
    (h : List.lookup k l = some v) : l.any (fun kv => kv.1 == k) = true := by
  induction l with
  | nil => exact Option.noConfusion h
  | cons p ps ih =>
    rw [List.lookup] at h
    cases hkp : (k == p.1) with
    | true =>
      have : p.1 = k := (beq_iff_eq.1 hkp).symm
      simp [List.any_cons, this]
    | false =>
      rw [hkp] at h
      simp [List.any_cons, ih h]

theorem any_key_false_of_lookup_none {k : String} {l : List (String × Json)}
    (h : List.lookup k l = none) : l.any (fun kv => kv.1 == k) = false := by
  induction l with
  | nil => rfl
  | cons p ps ih =>
    rw [List.lookup] at h
    cases hkp : (k == p.1) with
    | true => rw [hkp] at h; exact Option.noConfusion h
    | false =>
      rw [hkp] at h
      have hp : (p.1 == k) = false := by
        cases hpk : (p.1 == k) with
        | false => rfl
        | true =>
          have : p.1 = k := beq_iff_eq.1 hpk
          rw [this, beq_self_eq_true] at hkp
          exact Bool.noConfusion hkp
      simp [List.any_cons, hp, ih h]

/-! ### The `model.<package>.<name>` pattern, stated from the spec's words -/

/-- The spec's parent-identifier pattern `model.<package>.<name>`: the
literal `model.`, a nonempty dot-free package, a dot, a nonempty dot-free
name, then anything (`re.match` does not anchor the end of the string). -/
def modelPatDecomp (s : String) : Prop :=
  ∃ pkg name rest : List Char,
    s.toList = "model.".toList ++ pkg ++ '.' :: name ++ rest ∧
    pkg ≠ [] ∧ name ≠ [] ∧ '.' ∉ pkg ∧ '.' ∉ name

theorem dropLit_self_append (lit rest : List Char) : dropLit lit (lit ++ rest) = some rest := by
  induction lit with
  | nil => rfl
  | cons c cs ih => simp [dropLit, ih]

theorem isPrefixOf_self_append (l t : List Char) : List.isPrefixOf l (l ++ t) = true := by
  induction l with
  | nil => cases t <;> rfl
  | cons c cs ih => simp [List.cons_append, List.isPrefixOf, ih]

theorem takeWhile_append_notdot {p : List Char} (tail : List Char) (hp : '.' ∉ p) :
    (p ++ '.' :: tail).takeWhile (fun c => c != '.') = p := by
  induction p with
  | nil => simp [List.takeWhile_cons]
  | cons c cs ih =>
    have hc : c ≠ '.' := fun he => hp (he ▸ List.mem_cons_self c cs)
    have hcs : '.' ∉ cs := fun hm => hp (List.mem_cons_of_mem c hm)
    simp [List.takeWhile_cons, bne_iff_ne, hc, ih hcs]

theorem dropWhile_append_notdot {p : List Char} (tail : List Char) (hp : '.' ∉ p) :
    (p ++ '.' :: tail).dropWhile (fun c => c != '.') = '.' :: tail := by
  induction p with
  | nil => simp [List.dropWhile_cons]
  | cons c cs ih =>
    have hc : c ≠ '.' := fun he => hp (he ▸ List.mem_cons_self c cs)
    have hcs : '.' ∉ cs := fun hm => hp (List.mem_cons_of_mem c hm)
    simp [List.dropWhile_cons, bne_iff_ne, hc, ih hcs]

theorem takeWhile_all_notdot {p : List Char} (hp : '.' ∉ p) :
    p.takeWhile (fun c => c != '.') = p := by
  induction p with
  | nil => rfl
  | cons c cs ih =>
    have hc : c ≠ '.' := fun he => hp (he ▸ List.mem_cons_self c cs)
    have hcs : '.' ∉ cs := fun hm => hp (List.mem_cons_of_mem c hm)
    simp [List.takeWhile_cons, bne_iff_ne, hc, ih hcs]

theorem dropWhile_head_false {p : Char → Bool} {l : List Char} {c : Char} {u : List Char}
    (h : l.dropWhile p = c :: u) : p c = false := by
  induction l with
  | nil => exact List.noConfusion h
  | cons a as ih =>
    rw [List.dropWhile_cons] at h
    cases hp : p a with
    | true => rw [hp] at h; simp only [if_pos rfl] at h; exact ih h
    | false =>
      rw [hp] at h
      simp only [Bool.false_eq_true, if_neg] at h
      have : a = c := (List.cons.inj h).1
      rw [← this]
      exact hp

/-- Forward direction of the regex groups on a decomposed input (group 2
maximality is expressed by `rest` being empty or starting with a dot). -/
theorem regexGroups_of_decomp {pkg name rest : List Char}
    (hp : pkg ≠ []) (hn : name ≠ []) (hdp : '.' ∉ pkg) (hdn : '.' ∉ name)
    (hrest : rest = [] ∨ ∃ t, rest = '.' :: t) :
    regexGroups (pkg ++ '.' :: (name ++ rest)) = some (pkg, name) := by
  have hname : (name ++ rest).takeWhile (fun c => c != '.') = name := by
    rcases hrest with h | ⟨t, ht⟩
    · rw [h, List.append_nil]
      exact takeWhile_all_notdot hdn
    · rw [ht]
      exact takeWhile_append_notdot t hdn
  unfold regexGroups
  rw [takeWhile_append_notdot _ hdp, dropWhile_append_notdot _ hdp]
  simp [hname, isEmpty_false_of_ne hp, isEmpty_false_of_ne hn]

/-- Reverse direction: successful regex groups exhibit the decomposition. -/
theorem regexGroups_some {t pkg name : List Char}
    (h : regexGroups t = some (pkg, name)) :
    ∃ rest, t = pkg ++ '.' :: (name ++ rest) ∧ pkg ≠ [] ∧ name ≠ [] ∧
      '.' ∉ pkg ∧ '.' ∉ name ∧ (rest = [] ∨ ∃ u, rest = '.' :: u) := by
  simp only [regexGroups] at h
  cases hd : t.dropWhile (fun c => c != '.') with
  | nil => simp only [hd] at h; exact Option.noConfusion h
  | cons c rest2 =>
    simp only [hd] at h
    have hc : c = '.' := by
      have := dropWhile_head_false hd
      simpa [bne_iff_ne] using this
    rw [if_pos hc] at h
    by_cases hemp : ((t.takeWhile (fun c => c != '.')).isEmpty ||
        (rest2.takeWhile (fun c => c != '.')).isEmpty) = true
    · rw [if_pos hemp] at h; exact Option.noConfusion h
    · rw [if_neg hemp] at h
      have hinj := Prod.mk.inj (Option.some.inj h)
      obtain ⟨hpkg, hname⟩ := hinj
      rw [Bool.or_eq_true, not_or] at hemp
      obtain ⟨hpe, hne⟩ := hemp
      have hpe' : pkg ≠ [] := by
        rw [← hpkg]; intro he; exact hpe (by rw [he]; rfl)
      have hne' : name ≠ [] := by
        rw [← hname]; intro he; exact hne (by rw [he]; rfl)
      have hdp : '.' ∉ pkg := by
        rw [← hpkg]
        intro hm
        have := List.mem_takeWhile_imp hm
        simp [bne_iff_ne] at this
      have hdn : '.' ∉ name := by
        rw [← hname]
        intro hm
        have := List.mem_takeWhile_imp hm
        simp [bne_iff_ne] at this
      refine ⟨rest2.dropWhile (fun c => c != '.'), ?_, hpe', hne', hdp, hdn, ?_⟩
      · have h1 : t.takeWhile (fun c => c != '.') ++ t.dropWhile (fun c => c != '.') = t :=
          List.takeWhile_append_dropWhile _ _
        have h2 : rest2.takeWhile (fun c => c != '.') ++
            rest2.dropWhile (fun c => c != '.') = rest2 :=
          List.takeWhile_append_dropWhile _ _
        calc t = t.takeWhile (fun c => c != '.') ++ t.dropWhile (fun c => c != '.') := h1.symm
          _ = pkg ++ '.' :: rest2 := by rw [hpkg, hd, hc]
          _ = pkg ++ '.' :: (name ++ rest2.dropWhile (fun c => c != '.')) := by
              conv_lhs => rw [← h2]
              rw [hname]
      · cases hd2 : rest2.dropWhile (fun c => c != '.') with
        | nil => exact Or.inl rfl
        | cons c2 u =>
          refine Or.inr ⟨u, ?_⟩
          have hc2 : c2 = '.' := by
            have := dropWhile_head_false hd2
            simpa [bne_iff_ne] using this
          rw [hc2]

/-- On a string of the matched shape, `extract_parent_model_name`
yields `package.model_name`. -/
theorem extract_of_decomp {s : String} {pkg name rest : List Char}
    (hs : s.toList = "model.".toList ++ pkg ++ '.' :: name ++ rest)
    (hp : pkg ≠ []) (hn : name ≠ []) (hdp : '.' ∉ pkg) (hdn : '.' ∉ name)
    (hrest : rest = [] ∨ ∃ t, rest = '.' :: t) :
    extract_parent_model_name s = some (String.mk pkg ++ "." ++ String.mk name) := by
  have hassoc : s.toList = "model.".toList ++ (pkg ++ '.' :: (name ++ rest)) := by
    rw [hs]
    simp [List.append_assoc, List.cons_append]
  have hpre : pyStartsWith s "model." = true := by
    unfold pyStartsWith
    rw [hassoc]
    exact isPrefixOf_self_append _ _
  unfold extract_parent_model_name
  rw [hpre, if_pos rfl]
  unfold regexModelMatch
  simp only [hassoc, dropLit_self_append, regexGroups_of_decomp hp hn hdp hdn hrest]

/-- A successful extraction exhibits the matched decomposition, and the
result is `package ++ "." ++ name`. -/
theorem decomp_of_extract {s n : String}
    (h : extract_parent_model_name s = some n) :
    modelPatDecomp s ∧ ∃ pkg name : List Char,
      n = String.mk pkg ++ "." ++ String.mk name ∧ pkg ≠ [] ∧ name ≠ [] := by
  unfold extract_parent_model_name at h
  by_cases hsw : pyStartsWith s "model." = true
  · rw [hsw, if_pos rfl] at h
    obtain ⟨t, ht⟩ : ∃ t, s.toList = "model.".toList ++ t := by
      unfold pyStartsWith at hsw
      obtain ⟨t, ht⟩ := List.isPrefixOf_iff_prefix.1 hsw
      exact ⟨t, ht.symm⟩
    unfold regexModelMatch at h
    simp only [ht, dropLit_self_append] at h
    cases hg : regexGroups t with
    | none => simp only [hg] at h; exact Option.noConfusion h
    | some pr =>
      obtain ⟨pkg, name⟩ := pr
      simp only [hg] at h
      have hn := (Option.some.inj h).symm
      obtain ⟨rest, hteq, hpe, hne, hdp, hdn, -⟩ := regexGroups_some hg
      refine ⟨⟨pkg, name, rest, ?_, hpe, hne, hdp, hdn⟩, ⟨pkg, name, hn, hpe, hne⟩⟩
      rw [ht, hteq]
      simp [List.append_assoc, List.cons_append]
  · rw [Bool.not_eq_true] at hsw
    rw [hsw] at h
    simp at h

/-- A successful extraction is never the empty string. -/
theorem extract_some_ne_empty {s n : String}
    (h : extract_parent_model_name s = some n) : n ≠ "" := by
  obtain ⟨-, pkg, name, hform, hp, -⟩ := decomp_of_extract h
  intro he
  rw [he] at hform
  have : ("" : String).data = (String.mk pkg ++ "." ++ String.mk name).data :=
    congrArg String.data hform
  rw [String.data_append, String.data_append] at this
  cases pkg with
  | nil => exact hp rfl
  | cons c cs => exact List.noConfusion this

/-- The filter of the list comprehension (Python truthiness of the
`Optional[str]` result) coincides with dropping `None`s, because a
successful extraction is never the empty string. -/
theorem filterMap_extract_eq (ids : List String) :
    ids.filterMap (fun s =>
      match extract_parent_model_name s with
      | some n => if n = "" then none else some n
      | none => none) =
    ids.filterMap (fun s => extract_parent_model_name s) := by
  induction ids with
  | nil => rfl
  | cons a as ih =>
    cases ha : extract_parent_model_name a with
    | none => simp only [List.filterMap_cons, ha, ih]
    | some n =>
      simp only [List.filterMap_cons, ha, if_neg (extract_some_ne_empty ha), ih]

theorem mapExcept_str_map (ss : List String) :
    mapExcept (fun p =>
      match p with
      | Json.str s => Except.ok s
      | _ => Except.error "AttributeError: startswith on a non-string")
      (ss.map Json.str) = .ok ss := by
  induction ss with
  | nil => rfl
  | cons a as ih => simp only [List.map_cons, mapExcept, ih, exceptBind_ok]

/-- On a list of string identifiers, the recognized-parent fan-out list
is exactly the `filterMap` of `extract_parent_model_name`: non-matching
identifiers contribute nothing (dropped, not padded in place). -/
theorem recognized_parents_strs (ss : List String) :
    recognized_parents (.arr (ss.map Json.str)) =
      .ok (ss.filterMap (fun s => extract_parent_model_name s)) := by
  simp only [recognized_parents, mapExcept_str_map, exceptBind_ok, filterMap_extract_eq]

/-! ### Well-formedness of lineage entries (the shapes the service returns) -/

/-- The `parentIds` value the loop body reads:
`model.get("parentIds", [])`. -/
def entryParentIds : Json → Json
  | .obj fields => objGetD fields "parentIds" (.arr [])
  | _ => .null

/-- A model-lineage entry the flattener's loop body accepts without
raising: a dict whose `parentIds`, when present, is a list of strings
(as the GraphQL schema returns). -/
def modelEntryWf : Json → Bool
  | .obj fields =>
    match List.lookup "parentIds" fields with
    | none => true
    | some (.arr elems) => elems.all (fun p =>
        match p with
        | .str _ => true
        | _ => false)
    | some _ => false
  | _ => false

theorem mapExcept_str_ok {elems : List Json}
    (h : elems.all (fun p =>
      match p with
      | Json.str _ => true
      | _ => false) = true) :
    ∃ ss : List String, elems = ss.map Json.str := by
  induction elems with
  | nil => exact ⟨[], rfl⟩
  | cons p ps ih =>
    rw [List.all_cons, Bool.and_eq_true] at h
    obtain ⟨h1, h2⟩ := h
    obtain ⟨ss, hss⟩ := ih h2
    cases p with
    | str s => exact ⟨s :: ss, by rw [List.map_cons, hss]⟩
    | null => exact Bool.noConfusion h1
    | bool b => exact Bool.noConfusion h1
    | num n => exact Bool.noConfusion h1
    | arr es => exact Bool.noConfusion h1
    | obj fs => exact Bool.noConfusion h1

theorem recognized_parents_wf {m : Json} (h : modelEntryWf m = true) :
    ∃ mp, recognized_parents (entryParentIds m) = .ok mp := by
  cases m with
  | obj fields =>
    cases hpid : List.lookup "parentIds" fields with
    | none =>
      simp only [entryParentIds, objGetD, hpid, Option.getD_none]
      exact ⟨[], rfl⟩
    | some v =>
      simp only [entryParentIds, objGetD, hpid, Option.getD_some]
      simp only [modelEntryWf, hpid] at h
      cases v with
      | arr elems =>
        obtain ⟨ss, hss⟩ := mapExcept_str_ok h
        subst hss
        exact ⟨_, recognized_parents_strs ss⟩
      | null => exact Bool.noConfusion h
      | bool b => exact Bool.noConfusion h
      | str s => exact Bool.noConfusion h
      | num n => exact Bool.noConfusion h
      | obj fs => exact Bool.noConfusion h
  | null => exact Bool.noConfusion h
  | bool b => exact Bool.noConfusion h
  | str s => exact Bool.noConfusion h
  | num n => exact Bool.noConfusion h
  | arr es => exact Bool.noConfusion h

theorem parse_model_item_ok {m : Json} (h : modelEntryWf m = true) :
    ∃ mp r, recognized_parents (entryParentIds m) = .ok mp ∧
      parse_model_item m = .ok r ∧
      r.parent_cols = (List.range 10).map (fun i => mp[i]?) := by
  cases m with
  | obj fields =>
    obtain ⟨mp, hmp⟩ := recognized_parents_wf h
    have hmp' : recognized_parents (objGetD fields "parentIds" (.arr [])) = .ok mp := hmp
    have hitem : parse_model_item (.obj fields) = .ok {
        project_id := objGet fields "projectId"
        database := objGet fields "database"
        schema := objGet fields "schema"
        name := objGet fields "name"
        node_id := objGet fields "uniqueId"
        tags := objGet fields "tags"
        resource_type := objGet fields "resourceType"
        materialization := objGet fields "materializationType"
        access := objGet fields "access"
        group := objGet fields "group"
        version := objGet fields "version"
        parent_ids := objGet fields "parentIds"
        public_parent_ids := objGet fields "publicParentIds"
        parent_cols := (List.range 10).map (fun i => mp[i]?) } := by
      simp only [parse_model_item, hmp', exceptBind_ok]
    exact ⟨mp, _, hmp, hitem, rfl⟩
  | null => exact Bool.noConfusion h
  | bool b => exact Bool.noConfusion h
  | str s => exact Bool.noConfusion h
  | num n => exact Bool.noConfusion h
  | arr es => exact Bool.noConfusion h

/-! ### Guard and parser unfolding -/

theorem guard_false_of_present {kvs dkvs : List (String × Json)} {key : String} {v : Json}
    (hdata : List.lookup "data" kvs = some (.obj dkvs))
    (hkey : List.lookup key dkvs = some v) :
    guardMissing (.obj kvs) key = .ok false := by
  have h1 := any_key_of_lookup hdata
  have h2 := any_key_of_lookup hkey
  have hne := isEmpty_false_of_ne (lookup_ne_nil hdata)
  simp only [guardMissing, pyTruthy, pyContains, pyIndex, hdata, hne, h1, h2,
    Bool.not_false, Bool.not_true, exceptBind_ok, if_neg, Bool.false_eq_true,
    ite_false, Bool.true_eq_false]

theorem parse_model_entries
    {kvs dkvs ekvs fkvs : List (String × Json)} {entries : List Json}
    (hdata : List.lookup "data" kvs = some (.obj dkvs))
    (henv : List.lookup "environment" dkvs = some (.obj ekvs))
    (hdef : List.lookup "definition" ekvs = some (.obj fkvs))
    (hlin : List.lookup "lineage" fkvs = some (.arr entries)) :
    parse_model_lineage_to_df (.obj kvs) = mapExcept parse_model_item entries := by
  have hg := guard_false_of_present hdata henv
  simp only [parse_model_lineage_to_df, hg, exceptBind_ok, pyIndex, hdata, henv, hdef,
    hlin, Bool.false_eq_true, ite_false, if_neg]

theorem parse_column_entries
    {kvs dkvs ckvs : List (String × Json)} {entries : List Json}
    (hdata : List.lookup "data" kvs = some (.obj dkvs))
    (hcol : List.lookup "column" dkvs = some (.obj ckvs))
    (hlin : List.lookup "lineage" ckvs = some (.arr entries)) :
    parse_column_lineage_to_df (.obj kvs) = mapExcept parse_column_item entries := by
  have hg := guard_false_of_present hdata hcol
  simp only [parse_column_lineage_to_df, hg, exceptBind_ok, pyIndex, hdata, hcol,
    hlin, Bool.false_eq_true, ite_false, if_neg]

/-! ### Positional fan-out facts -/

theorem fanout_length {β : Type} (f : Nat → β) :
    ((List.range 10).map f).length = 10 := by
  rw [List.length_map, List.length_range]

theorem fanout_getElem? {β : Type} (f : Nat → Option β) {i : Nat} (h : i < 10) :
    ((List.range 10).map f)[i]? = some (f i) := by
  rw [List.getElem?_map, List.getElem?_range h]
  rfl

theorem fanout_pad_none {β : Type} (mp : List β) {i : Nat}
    (hle : mp.length ≤ i) (hlt : i < 10) :
    ((List.range 10).map (fun j => mp[j]?))[i]? = some none := by
  rw [fanout_getElem? _ hlt, List.getElem?_eq_none hle]

theorem fanout_take {β : Type} (xs : List β) (h : 10 ≤ xs.length) :
    (List.range 10).map (fun i => xs[i]?) = (xs.take 10).map some := by
  apply List.ext_getElem?
  intro n
  by_cases hn : n < 10
  · rw [fanout_getElem? _ hn, List.getElem?_map, List.getElem?_take, if_pos hn,
      List.getElem?_eq_getElem (lt_of_lt_of_le hn h)]
    rfl
  · have h1 : (((List.range 10).map fun i => xs[i]?)).length ≤ n := by
      rw [fanout_length]; omega
    have h2 : ((xs.take 10).map some).length ≤ n := by
      rw [List.length_map, List.length_take]; omega
    rw [List.getElem?_eq_none h1, List.getElem?_eq_none h2]

/-! ### Column-lineage entry facts -/

/-- A column-lineage entry the flattener's loop body accepts without
raising: a dict with a string `name` and, when `parentColumns` is
present, a list value (as the GraphQL schema returns). -/
def colEntryWf : Json → Bool
  | .obj fields =>
    (match List.lookup "name" fields with
     | some (.str _) => true
     | _ => false) &&
    (match List.lookup "parentColumns" fields with
     | none => true
     | some (.arr _) => true
     | some _ => false)
  | _ => false

/-- The value the fan-out of one column entry reads:
`item.get("parentColumns", [])`. -/
def entryParentColumns : Json → Json
  | .obj fields => objGetD fields "parentColumns" (.arr [])
  | _ => .null

theorem parse_column_item_of_fields {fields : List (String × Json)} {nm : String}
    {xs : List Json}
    (hname : List.lookup "name" fields = some (.str nm))
    (hpc : objGetD fields "parentColumns" (.arr []) = .arr xs) :
    parse_column_item (.obj fields) = .ok {
      project_id := objGet fields "projectId"
      node_id := objGet fields "nodeUniqueId"
      column_node_id := objGet fields "uniqueId"
      column_name := pyLower nm
      description := objGet fields "description"
      is_primary_key := objGet fields "isPrimaryKey"
      transformation_type := objGet fields "transformationType"
      description_origin_column_name := objGet fields "descriptionOriginColumnName"
      description_origin_resource_unique_id :=
        objGet fields "descriptionOriginResourceUniqueId"
      relationship := objGet fields "relationship"
      parent_columns := objGet fields "parentColumns"
      child_columns := objGet fields "ChildColumns"
      parent_column_cols := (List.range 10).map (fun i => xs[i]?) } := by
  have hn : objGet fields "name" = .str nm := by
    unfold objGet
    rw [hname, Option.getD_some]
  simp only [parse_column_item, hn, hpc, exceptBind_ok]

theorem parse_column_item_wf {item : Json} (h : colEntryWf item = true) :
    ∃ fields xs r, item = .obj fields ∧
      entryParentColumns item = .arr xs ∧
      parse_column_item item = .ok r ∧
      r.child_columns = objGet fields "ChildColumns" ∧
      r.parent_column_cols = (List.range 10).map (fun i => xs[i]?) := by
  cases item with
  | obj fields =>
    rw [colEntryWf, Bool.and_eq_true] at h
    obtain ⟨h1, h2⟩ := h
    obtain ⟨nm, hname⟩ : ∃ nm, List.lookup "name" fields = some (.str nm) := by
      cases hm : List.lookup "name" fields with
      | none => rw [hm] at h1; exact Bool.noConfusion h1
      | some v =>
        rw [hm] at h1
        cases v with
        | str s => exact ⟨s, rfl⟩
        | null => exact Bool.noConfusion h1
        | bool b => exact Bool.noConfusion h1
        | num n => exact Bool.noConfusion h1
        | arr es => exact Bool.noConfusion h1
        | obj fs => exact Bool.noConfusion h1
    obtain ⟨xs, hxs⟩ : ∃ xs, objGetD fields "parentColumns" (.arr []) = .arr xs := by
      cases hm : List.lookup "parentColumns" fields with
      | none => exact ⟨[], by rw [objGetD, hm, Option.getD_none]⟩
      | some v =>
        rw [hm] at h2
        cases v with
        | arr es => exact ⟨es, by rw [objGetD, hm, Option.getD_some]⟩
        | null => exact Bool.noConfusion h2
        | bool b => exact Bool.noConfusion h2
        | str s => exact Bool.noConfusion h2
        | num n => exact Bool.noConfusion h2
        | obj fs => exact Bool.noConfusion h2
    exact ⟨fields, xs, _, rfl, hxs, parse_column_item_of_fields hname hxs, rfl, rfl⟩
  | null => exact Bool.noConfusion h
  | bool b => exact Bool.noConfusion h
  | str s => exact Bool.noConfusion h
  | num n => exact Bool.noConfusion h
  | arr es => exact Bool.noConfusion h

/-! ### Fan-out orchestration -/

/-- The table one model contributes before the non-empty check: the
parsed rows when the fetch and parse succeed, nothing when the caught
exception path is taken. -/
def perModelTable (fetch : Json → Except String Json) (r : ModelRow) : List ColumnRow :=
  match fetchParse fetch r.node_id with
  | .ok cols => cols
  | .error _ => []

theorem build_loop_eq (fetch : Json → Except String Json) (rows : List ModelRow) :
    build_loop fetch rows =
      ((rows.filter (fun r => pyTruthy r.node_id)).map (fun r => r.node_id),
       ((rows.filter (fun r => pyTruthy r.node_id)).map (perModelTable fetch)).filter
         (fun t => !t.isEmpty)) := by
  induction rows with
  | nil => rfl
  | cons row rest ih =>
    cases ht : pyTruthy row.node_id with
    | false => simp [build_loop, ht, ih, List.filter_cons]
    | true =>
      cases hf : fetchParse fetch row.node_id with
      | ok cols =>
        cases hc : cols.isEmpty with
        | true => simp [build_loop, ht, hf, hc, ih, List.filter_cons, perModelTable]
        | false => simp [build_loop, ht, hf, hc, ih, List.filter_cons, perModelTable]
      | error e => simp [build_loop, ht, hf, ih, List.filter_cons, perModelTable]

theorem build_comprehensive_eq {model_response : Json}
    {fetch : Json → Except String Json} {rows : List ModelRow}
    (h : parse_model_lineage_to_df model_response = .ok rows) :
    build_comprehensive_column_lineage model_response fetch =
      .ok ((rows.filter (fun r => pyTruthy r.node_id)).map (fun r => r.node_id),
        (((rows.filter (fun r => pyTruthy r.node_id)).map (perModelTable fetch)).filter
          (fun t => !t.isEmpty)).flatten) := by
  cases he : rows.isEmpty with
  | true =>
    have : rows = [] := List.isEmpty_iff.1 he
    subst this
    simp only [build_comprehensive_column_lineage, h, exceptBind_ok, List.isEmpty_nil,
      ite_true, if_pos rfl, List.filter_nil, List.map_nil, List.flatten_nil]
  | false =>
    simp only [build_comprehensive_column_lineage, h, exceptBind_ok, he,
      Bool.false_eq_true, ite_false, if_neg, build_loop_eq]

/-! ### Claim theorems -/

/-- C1: For every valid model-lineage response — the nested path
`data.environment.definition.lineage` present and a list of well-formed
lineage entries — `parse_model_lineage_to_df` produces a table with
exactly one row per input lineage entry, every row has exactly 10
parent-name columns `parent_1..parent_10`, and positions beyond the
count of recognized model parents are null. -/
theorem C1_one_row_per_entry_ten_parent_cols
    {kvs dkvs ekvs fkvs : List (String × Json)} {entries : List Json}
    (hdata : List.lookup "data" kvs = some (.obj dkvs))
    (henv : List.lookup "environment" dkvs = some (.obj ekvs))
    (hdef : List.lookup "definition" ekvs = some (.obj fkvs))
    (hlin : List.lookup "lineage" fkvs = some (.arr entries))
    (hwf : ∀ m ∈ entries, modelEntryWf m = true) :
    ∃ rows, parse_model_lineage_to_df (.obj kvs) = .ok rows ∧
      rows.length = entries.length ∧
      ∀ r ∈ rows, r.parent_cols.length = 10 ∧
        ∃ m ∈ entries, parse_model_item m = .ok r ∧
          ∀ mp, recognized_parents (entryParentIds m) = .ok mp →
            ∀ i, mp.length ≤ i → i < 10 → r.parent_cols[i]? = some none := by
  have hall : ∀ m ∈ entries, ∃ b, parse_model_item m = .ok b := by
    intro m hm
    obtain ⟨mp, r, -, hr, -⟩ := parse_model_item_ok (hwf m hm)
    exact ⟨r, hr⟩
  obtain ⟨rows, hrows, hf2⟩ := mapExcept_ok_of_forall _ _ hall
  refine ⟨rows, ?_, (List.Forall₂.length_eq hf2).symm, ?_⟩
  · rw [parse_model_entries hdata henv hdef hlin, hrows]
  · intro r hr
    obtain ⟨m, hm, hparse⟩ := forall₂_mem_right hf2 r hr
    obtain ⟨mp₀, r₀, hmp₀, hpr₀, hcols₀⟩ := parse_model_item_ok (hwf m hm)
    have hr0 : r = r₀ := by
      rw [hparse] at hpr₀
      exact Except.ok.inj hpr₀
    subst hr0
    refine ⟨by rw [hcols₀]; exact fanout_length _, m, hm, hparse, ?_⟩
    intro mp hmp i hle hlt
    rw [hmp₀] at hmp
    have hmpe : mp₀ = mp := Except.ok.inj hmp
    subst hmpe
    rw [hcols₀]
    exact fanout_pad_none mp₀ hle hlt

/-- Witness for C1: a concrete two-entry response, one entry with a
model parent and a source parent. -/
theorem C1_one_row_per_entry_ten_parent_cols_witness :
    ∃ rows, parse_model_lineage_to_df (.obj [("data", .obj [("environment", .obj
        [("definition", .obj [("lineage", .arr
          [.obj [("uniqueId", .str "model.p.a"),
                 ("parentIds", .arr [.str "model.p.base", .str "source.x.raw"])],
           .obj [("uniqueId", .str "model.p.b")]])])])])]) = .ok rows ∧
      rows.length = 2 ∧ ∀ r ∈ rows, r.parent_cols.length = 10 := by
  obtain ⟨rows, h1, h2, h3⟩ :=
    @C1_one_row_per_entry_ten_parent_cols
      [("data", .obj [("environment", .obj
        [("definition", .obj [("lineage", .arr
          [.obj [("uniqueId", .str "model.p.a"),
                 ("parentIds", .arr [.str "model.p.base", .str "source.x.raw"])],
           .obj [("uniqueId", .str "model.p.b")]])])])])]
      [("environment", .obj [("definition", .obj [("lineage", .arr
          [.obj [("uniqueId", .str "model.p.a"),
                 ("parentIds", .arr [.str "model.p.base", .str "source.x.raw"])],
           .obj [("uniqueId", .str "model.p.b")]])])])]
      [("definition", .obj [("lineage", .arr
          [.obj [("uniqueId", .str "model.p.a"),
                 ("parentIds", .arr [.str "model.p.base", .str "source.x.raw"])],
           .obj [("uniqueId", .str "model.p.b")]])])]
      [("lineage", .arr
          [.obj [("uniqueId", .str "model.p.a"),
                 ("parentIds", .arr [.str "model.p.base", .str "source.x.raw"])],
           .obj [("uniqueId", .str "model.p.b")]])]
      [.obj [("uniqueId", .str "model.p.a"),
             ("parentIds", .arr [.str "model.p.base", .str "source.x.raw"])],
       .obj [("uniqueId", .str "model.p.b")]]
      rfl rfl rfl rfl (by intro m hm; fin_cases hm <;> rfl)
  exact ⟨rows, h1, by rw [h2]; rfl, fun r hr => (h3 r hr).1⟩

/-- C2: A raw parent identifier not matching `model.<package>.<name>`
contributes zero entries to the parent-name fan-out (dropped, not
null-padded in place); one that matches yields `package.model_name` from
the first two dot-separated segments after the prefix
(`source.analytics.raw_orders` contributes nothing,
`model.analytics.stg_orders` yields `analytics.stg_orders`). -/
theorem C2_parent_extraction :
    (∀ s : String, ¬ modelPatDecomp s → extract_parent_model_name s = none) ∧
    (∀ (s : String) (pkg name rest : List Char),
      s.toList = "model.".toList ++ pkg ++ '.' :: name ++ rest →
      pkg ≠ [] → name ≠ [] → '.' ∉ pkg → '.' ∉ name →
      (rest = [] ∨ ∃ t, rest = '.' :: t) →
      extract_parent_model_name s = some (String.mk pkg ++ "." ++ String.mk name)) ∧
    (∀ ss : List String,
      recognized_parents (.arr (ss.map Json.str)) =
        .ok (ss.filterMap (fun s => extract_parent_model_name s))) ∧
    extract_parent_model_name "source.analytics.raw_orders" = none ∧
    extract_parent_model_name "model.analytics.stg_orders" = some "analytics.stg_orders" := by
  refine ⟨?_, ?_, recognized_parents_strs, rfl, rfl⟩
  · intro s hdec
    cases he : extract_parent_model_name s with
    | none => rfl
    | some n => exact absurd (decomp_of_extract he).1 hdec
  · intro s pkg name rest hs hp hn hdp hdn hrest
    exact extract_of_decomp hs hp hn hdp hdn hrest

/-- Witness for C2: each part of the theorem applied at a concrete
identifier. -/
theorem C2_parent_extraction_witness :
    extract_parent_model_name "source.analytics.raw_orders" = none ∧
    extract_parent_model_name "model.a.b.c" = some "a.b" ∧
    recognized_parents (.arr [Json.str "source.x.y", Json.str "model.p.m"]) =
      .ok ["p.m"] := by
  refine ⟨C2_parent_extraction.1 "source.analytics.raw_orders" ?_, ?_, ?_⟩
  · intro hdec
    obtain ⟨pkg, name, rest, h, -, -, -, -⟩ := hdec
    have hpre : "model.".toList <+: "source.analytics.raw_orders".toList :=
      ⟨pkg ++ ('.' :: name) ++ rest, by rw [h]; simp [List.append_assoc]⟩
    have hb : List.isPrefixOf "model.".toList "source.analytics.raw_orders".toList = true :=
      List.isPrefixOf_iff_prefix.2 hpre
    exact absurd hb (by decide)
  · have h2 := C2_parent_extraction.2.1 "model.a.b.c" ['a'] ['b'] ['.', 'c']
      (by decide) (by decide) (by decide) (by decide) (by decide)
      (Or.inr ⟨['c'], rfl⟩)
    exact h2
  · exact C2_parent_extraction.2.2.1 ["source.x.y", "model.p.m"]

/-- C3 counterexample: the guard of `parse_model_lineage_to_df` checks
only `data` and `environment`; with `definition` missing at its level
the parser raises a `KeyError` instead of returning an empty table. -/
theorem C3_counterexample :
    parse_model_lineage_to_df (.obj [("data", .obj [("environment", .obj [])])]) =
      .error "KeyError: definition" ∧
    parse_model_lineage_to_df (.obj [("data", .obj [("environment", .obj [])])]) ≠
      .ok [] := by
  refine ⟨rfl, ?_⟩
  intro h
  exact Except.noConfusion h

/-- C3 (amended): `parse_model_lineage_to_df` returns an empty table,
raising nothing, when the response is falsy/empty, lacks the key `data`,
or its `data` object lacks `environment`; but when those two keys are
present and `definition` (resp. `lineage`) is missing at its level, it
raises a `KeyError` rather than returning an empty table. -/
theorem C3_amended_soft_fail_shallow :
    (∀ j : Json, pyTruthy j = false → parse_model_lineage_to_df j = .ok []) ∧
    (∀ kvs : List (String × Json), List.lookup "data" kvs = none →
      parse_model_lineage_to_df (.obj kvs) = .ok []) ∧
    (∀ kvs dkvs, List.lookup "data" kvs = some (Json.obj dkvs) →
      List.lookup "environment" dkvs = none →
      parse_model_lineage_to_df (.obj kvs) = .ok []) ∧
    (∀ kvs dkvs ekvs, List.lookup "data" kvs = some (Json.obj dkvs) →
      List.lookup "environment" dkvs = some (Json.obj ekvs) →
      List.lookup "definition" ekvs = none →
      parse_model_lineage_to_df (.obj kvs) = .error "KeyError: definition") ∧
    (∀ kvs dkvs ekvs fkvs, List.lookup "data" kvs = some (Json.obj dkvs) →
      List.lookup "environment" dkvs = some (Json.obj ekvs) →
      List.lookup "definition" ekvs = some (Json.obj fkvs) →
      List.lookup "lineage" fkvs = none →
      parse_model_lineage_to_df (.obj kvs) = .error "KeyError: lineage") := by
  refine ⟨?_, ?_, ?_, ?_, ?_⟩
  · intro j hj
    simp [parse_model_lineage_to_df, guardMissing, hj, exceptBind_ok]
  · intro kvs h
    cases kvs with
    | nil => rfl
    | cons p ps =>
      have hc := any_key_false_of_lookup_none h
      simp [parse_model_lineage_to_df, guardMissing, pyTruthy, pyContains, hc,
        exceptBind_ok]
  · intro kvs dkvs hdata henv
    have h1 := any_key_of_lookup hdata
    have h2 := any_key_false_of_lookup_none henv
    have hne := isEmpty_false_of_ne (lookup_ne_nil hdata)
    simp [parse_model_lineage_to_df, guardMissing, pyTruthy, pyContains, pyIndex,
      hdata, hne, h1, h2, exceptBind_ok]
  · intro kvs dkvs ekvs hdata henv hdef
    have hg := guard_false_of_present hdata henv
    simp [parse_model_lineage_to_df, hg, pyIndex, hdata, henv, hdef, exceptBind_ok,
      exceptBind_error]
  · intro kvs dkvs ekvs fkvs hdata henv hdef hlin
    have hg := guard_false_of_present hdata henv
    simp [parse_model_lineage_to_df, hg, pyIndex, hdata, henv, hdef, hlin,
      exceptBind_ok, exceptBind_error]

/-- Witness for C3 (amended): each branch at a concrete response. -/
theorem C3_amended_soft_fail_shallow_witness :
    parse_model_lineage_to_df (.obj []) = .ok [] ∧
    parse_model_lineage_to_df (.obj [("other", .null)]) = .ok [] ∧
    parse_model_lineage_to_df (.obj [("data", .obj [("x", .null)])]) = .ok [] ∧
    parse_model_lineage_to_df
      (.obj [("data", .obj [("environment", .obj [("y", .null)])])]) =
      .error "KeyError: definition" ∧
    parse_model_lineage_to_df
      (.obj [("data", .obj [("environment", .obj
        [("definition", .obj [("z", .null)])])])]) =
      .error "KeyError: lineage" :=
  ⟨C3_amended_soft_fail_shallow.1 (.obj []) rfl,
   C3_amended_soft_fail_shallow.2.1 [("other", .null)] rfl,
   C3_amended_soft_fail_shallow.2.2.1 [("data", .obj [("x", .null)])] [("x", .null)]
     rfl rfl,
   C3_amended_soft_fail_shallow.2.2.2.1
     [("data", .obj [("environment", .obj [("y", .null)])])]
     [("environment", .obj [("y", .null)])] [("y", .null)] rfl rfl rfl,
   C3_amended_soft_fail_shallow.2.2.2.2
     [("data", .obj [("environment", .obj [("definition", .obj [("z", .null)])])])]
     [("environment", .obj [("definition", .obj [("z", .null)])])]
     [("definition", .obj [("z", .null)])] [("z", .null)] rfl rfl rfl rfl⟩

/-- C4: For a column-lineage entry with a string name and a raw
`parentColumns` list, the `parent_column_1..parent_column_10` fan-out
preserves the raw order with no filtering: position `i` holds element
`i`, so 12 parents give exactly the first 10, fewer than 10 leave the
remaining positions null. -/
theorem C4_parent_column_fanout {fields : List (String × Json)} {nm : String}
    {xs : List Json}
    (hname : List.lookup "name" fields = some (.str nm))
    (hpc : List.lookup "parentColumns" fields = some (.arr xs)) :
    ∃ r, parse_column_item (.obj fields) = .ok r ∧
      r.parent_column_cols.length = 10 ∧
      (∀ i, i < 10 → r.parent_column_cols[i]? = some xs[i]?) ∧
      (10 ≤ xs.length → r.parent_column_cols = (xs.take 10).map some) ∧
      (∀ i, xs.length ≤ i → i < 10 → r.parent_column_cols[i]? = some none) := by
  have hget : objGetD fields "parentColumns" (.arr []) = .arr xs := by
    rw [objGetD, hpc, Option.getD_some]
  refine ⟨_, parse_column_item_of_fields hname hget, fanout_length _, ?_, ?_, ?_⟩
  · intro i hi
    exact fanout_getElem? _ hi
  · intro hlen
    exact fanout_take xs hlen
  · intro i hle hlt
    exact fanout_pad_none xs hle hlt

/-- Witness for C4: a 12-element parent-column list; the fan-out is
exactly the first 10, in raw order. -/
theorem C4_parent_column_fanout_witness :
    ∃ r, parse_column_item (.obj [("name", Json.str "Order_ID"),
      ("parentColumns", Json.arr
        [.str "c01", .str "c02", .str "c03", .str "c04", .str "c05", .str "c06",
         .str "c07", .str "c08", .str "c09", .str "c10", .str "c11", .str "c12"])]) =
        .ok r ∧
      r.parent_column_cols =
        ([Json.str "c01", .str "c02", .str "c03", .str "c04", .str "c05", .str "c06",
          .str "c07", .str "c08", .str "c09", .str "c10", .str "c11", .str "c12"].take
            10).map some := by
  obtain ⟨r, h1, -, -, h4, -⟩ :=
    @C4_parent_column_fanout
      [("name", Json.str "Order_ID"),
       ("parentColumns", Json.arr
        [.str "c01", .str "c02", .str "c03", .str "c04", .str "c05", .str "c06",
         .str "c07", .str "c08", .str "c09", .str "c10", .str "c11", .str "c12"])]
      "Order_ID"
      [.str "c01", .str "c02", .str "c03", .str "c04", .str "c05", .str "c06",
       .str "c07", .str "c08", .str "c09", .str "c10", .str "c11", .str "c12"]
      rfl rfl
  exact ⟨r, h1, h4 (by decide)⟩

/-- C5 counterexample: a model table with one row whose node identifier
is the empty string — non-null, so the claim's count `M` is 1 — leads to
zero column-lineage queries being issued: the loop skips *falsy*
identifiers (`if not unique_id: continue`), not just null ones. -/
theorem C5_counterexample :
    (parse_model_lineage_to_df (.obj [("data", .obj [("environment", .obj
        [("definition", .obj [("lineage", .arr
          [.obj [("uniqueId", .str "")]])])])])])).map
      (fun rows => rows.map (fun r => r.node_id)) = .ok [Json.str ""] ∧
    Json.str "" ≠ Json.null ∧
    build_comprehensive_column_lineage (.obj [("data", .obj [("environment", .obj
        [("definition", .obj [("lineage", .arr
          [.obj [("uniqueId", .str "")]])])])])])
      (fun _ => .ok (.obj [])) = .ok ([], []) := by
  refine ⟨rfl, ?_, rfl⟩
  intro h
  exact Json.noConfusion h

/-- C5 (amended): for a parsed model table, the build issues exactly one
column-lineage query per row with a *truthy* node identifier (non-null
and non-empty), in the table's iteration order, and concatenates exactly
the non-empty per-model result tables in that same order; if no
per-model table is non-empty (also when there are no rows) the result
table is empty. -/
theorem C5_amended_truthy_fanout {model_response : Json}
    {fetch : Json → Except String Json} {rows : List ModelRow}
    (h : parse_model_lineage_to_df model_response = .ok rows) :
    build_comprehensive_column_lineage model_response fetch =
      .ok ((rows.filter (fun r => pyTruthy r.node_id)).map (fun r => r.node_id),
        (((rows.filter (fun r => pyTruthy r.node_id)).map (perModelTable fetch)).filter
          (fun t => !t.isEmpty)).flatten) :=
  build_comprehensive_eq h

/-- Witness for C5 (amended): two models, one truthy and one null
identifier; one query is issued and the empty per-model table is
dropped. -/
theorem C5_amended_truthy_fanout_witness :
    build_comprehensive_column_lineage (.obj [("data", .obj [("environment", .obj
        [("definition", .obj [("lineage", .arr
          [.obj [("uniqueId", .str "model.p.a")], .obj []])])])])])
      (fun _ => .ok (.obj [])) = .ok ([Json.str "model.p.a"], []) := by
  have h := @C5_amended_truthy_fanout
    (.obj [("data", .obj [("environment", .obj
        [("definition", .obj [("lineage", .arr
          [.obj [("uniqueId", .str "model.p.a")], .obj []])])])])])
    (fun _ => .ok (.obj [])) _ rfl
  exact h

/-- C6: an exception while fetching or parsing one model's column
lineage does not prevent subsequent models from being processed: the
query for the failing model is still issued (its identifier is the one
logged), its contribution is dropped, and the models before and after it
contribute exactly as they would alone. -/
theorem C6_per_model_error_isolation
    {model_response : Json} {fetch : Json → Except String Json}
    {rows1 rows2 : List ModelRow} {r : ModelRow} {e : String}
    (hparse : parse_model_lineage_to_df model_response = .ok (rows1 ++ r :: rows2))
    (ht : pyTruthy r.node_id = true)
    (herr : fetchParse fetch r.node_id = .error e) :
    build_comprehensive_column_lineage model_response fetch =
      .ok ((rows1.filter (fun x => pyTruthy x.node_id)).map (fun x => x.node_id) ++
            r.node_id ::
              (rows2.filter (fun x => pyTruthy x.node_id)).map (fun x => x.node_id),
        (((rows1.filter (fun x => pyTruthy x.node_id)).map (perModelTable fetch)).filter
            (fun t => !t.isEmpty) ++
          ((rows2.filter (fun x => pyTruthy x.node_id)).map (perModelTable fetch)).filter
            (fun t => !t.isEmpty)).flatten) := by
  rw [build_comprehensive_eq hparse]
  have hpm : perModelTable fetch r = [] := by rw [perModelTable, herr]
  simp [List.filter_append, List.filter_cons, ht, List.map_append, hpm]

/-- Witness for C6: the first of two models fails with a connection
error; the second is still processed. -/
theorem C6_per_model_error_isolation_witness :
    build_comprehensive_column_lineage (.obj [("data", .obj [("environment", .obj
        [("definition", .obj [("lineage", .arr
          [.obj [("uniqueId", .str "b")], .obj [("uniqueId", .str "c")]])])])])])
      (fun j => match j with
        | .str "b" => .error "connection refused"
        | _ => .ok (.obj [])) = .ok ([Json.str "b", Json.str "c"], []) := by
  have h := @C6_per_model_error_isolation
    (.obj [("data", .obj [("environment", .obj
        [("definition", .obj [("lineage", .arr
          [.obj [("uniqueId", .str "b")], .obj [("uniqueId", .str "c")]])])])])])
    (fun j => match j with
      | .str "b" => .error "connection refused"
      | _ => .ok (.obj []))
    [] _ _ "connection refused" rfl rfl rfl
  exact h

/-- C7 counterexample: a 201 status is 2xx, yet `execute_query` returns
the empty dict, not the decoded body — the code compares the status to
exactly 200. -/
theorem C7_counterexample :
    execute_query "env" "q" none (fun _ => ⟨201, .obj [("ok", .num 1)], "created"⟩) =
      .obj [] ∧
    (200 ≤ 201 ∧ 201 < 300) ∧
    Json.obj [("ok", .num 1)] ≠ .obj [] := by
  refine ⟨rfl, by decide, ?_⟩
  intro h
  injection h with h2
  exact List.noConfusion h2

/-- C7 (amended): `execute_query` returns the decoded body exactly when
the HTTP status is 200, and the empty dict for every other status —
2xx or not — raising no exception. -/
theorem C7_amended_exact_200 {env_id q : String}
    {vars : Option (List (String × Json))} {transport : String → HttpResponse}
    {resp : HttpResponse}
    (h : transport (build_query env_id q vars) = resp) :
    (resp.status_code = 200 → execute_query env_id q vars transport = resp.body) ∧
    (resp.status_code ≠ 200 → execute_query env_id q vars transport = .obj []) := by
  subst h
  constructor
  · intro h200
    simp [execute_query, h200]
  · intro hne
    have hb : ((transport (build_query env_id q vars)).status_code == 200) = false :=
      beq_eq_false_iff_ne.2 hne
    simp [execute_query, hb]

/-- Witness for C7 (amended): one 200 transport and one 500 transport. -/
theorem C7_amended_exact_200_witness :
    execute_query "e" "q" none (fun _ => ⟨200, .num 7, "ok"⟩) = .num 7 ∧
    execute_query "e" "q" none (fun _ => ⟨500, .num 7, "err"⟩) = .obj [] := by
  constructor
  · exact (@C7_amended_exact_200 "e" "q" none (fun _ => ⟨200, .num 7, "ok"⟩)
      ⟨200, .num 7, "ok"⟩ rfl).1 rfl
  · exact (@C7_amended_exact_200 "e" "q" none (fun _ => ⟨500, .num 7, "err"⟩)
      ⟨500, .num 7, "err"⟩ rfl).2 (by decide)

/-- C8 counterexample: with variables `e = 1` and `ee = 2`, the template
`$ee` is sent as `1e`: the earlier replacement of `$e` destroys the
`$ee` placeholder, so not every occurrence of each placeholder is
replaced by the JSON literal of its own value. -/
theorem C8_counterexample :
    build_query "env" "$ee" (some [("e", .num 1), ("ee", .num 2)]) = "1e" ∧
    jsonDumps (.num 2) = "2" ∧
    ("1e" : String) ≠ "2" := ⟨rfl, rfl, by decide⟩

/-- C8 (amended): substitution is textual and happens before the request
is sent: the caller's variables merged with `environmentId` are applied
sequentially in dict insertion order, each step replacing every
occurrence of `$key` in the current text by the JSON-encoded literal of
its value — strings with surrounding quotes, lists/numbers in literal
JSON form.  (When no placeholder is a prefix of another's occurrence, as
in the two fixed queries, this replaces each original placeholder with
its own value.) -/
theorem C8_amended_sequential_substitution :
    (∀ (env_id q : String) (vars : Option (List (String × Json)))
        (transport : String → HttpResponse),
      execute_query env_id q vars transport =
        (if (transport (build_query env_id q vars)).status_code == 200 then
          (transport (build_query env_id q vars)).body
        else .obj [])) ∧
    (∀ (env_id q : String) (vlist : List (String × Json)),
      build_query env_id q (some vlist) =
        (dictMerge vlist [("environmentId", Json.str env_id)]).foldl
          (fun acc kv => strReplace acc ("$" ++ kv.1) (jsonDumps kv.2)) q) ∧
    (∀ env_id q : String,
      build_query env_id q none =
        strReplace q "$environmentId" (jsonDumps (.str env_id))) ∧
    jsonDumps (.str "env123") = "\"env123\"" ∧
    jsonDumps (.num 42) = "42" ∧
    jsonDumps (.arr [.num 1, .num 2]) = "[1, 2]" ∧
    build_query "env123" "environment(id: $environmentId) end" none =
      "environment(id: \"env123\") end" :=
  ⟨fun _ _ _ _ => rfl, fun _ _ _ => rfl, fun _ _ => rfl, rfl, rfl, rfl, rfl⟩

/-- C9: for a column-lineage response whose entries carry the service's
child-column field under the key `childColumns` and have no key
`ChildColumns`, every row emitted by `parse_column_lineage_to_df` has a
null `child_columns` attribute: the extraction reads the
differently-cased `ChildColumns`, so the attribute is empty in
practice. -/
theorem C9_child_columns_always_null
    {kvs dkvs ckvs : List (String × Json)} {entries : List Json}
    (hdata : List.lookup "data" kvs = some (.obj dkvs))
    (hcol : List.lookup "column" dkvs = some (.obj ckvs))
    (hlin : List.lookup "lineage" ckvs = some (.arr entries))
    (hwf : ∀ m ∈ entries, colEntryWf m = true)
    (hcc : ∀ fields : List (String × Json), Json.obj fields ∈ entries →
        (List.lookup "childColumns" fields).isSome = true ∧
        List.lookup "ChildColumns" fields = none) :
    ∃ rows, parse_column_lineage_to_df (.obj kvs) = .ok rows ∧
      rows.length = entries.length ∧
      ∀ r ∈ rows, r.child_columns = Json.null := by
  have hall : ∀ m ∈ entries, ∃ b, parse_column_item m = .ok b := by
    intro m hm
    obtain ⟨fields, xs, r, -, -, hr, -, -⟩ := parse_column_item_wf (hwf m hm)
    exact ⟨r, hr⟩
  obtain ⟨rows, hrows, hf2⟩ := mapExcept_ok_of_forall _ _ hall
  refine ⟨rows, ?_, (List.Forall₂.length_eq hf2).symm, ?_⟩
  · rw [parse_column_entries hdata hcol hlin, hrows]
  · intro r hr
    obtain ⟨m, hm, hparse⟩ := forall₂_mem_right hf2 r hr
    obtain ⟨fields, xs, r₀, hmf, -, hr₀, hcc₀, -⟩ := parse_column_item_wf (hwf m hm)
    have hre : r = r₀ := by
      rw [hparse] at hr₀
      exact Except.ok.inj hr₀
    subst hre
    subst hmf
    have h2 := (hcc fields hm).2
    rw [hcc₀, objGet, h2, Option.getD_none]

/-- Witness for C9: a single entry carrying `childColumns` (lowercase c)
parses to a row with null `child_columns`. -/
theorem C9_child_columns_always_null_witness :
    ∃ rows, parse_column_lineage_to_df (.obj [("data", .obj [("column", .obj
        [("lineage", .arr [.obj [("name", .str "ID"),
          ("childColumns", .arr [.str "down.col"])]])])])]) = .ok rows ∧
      rows.length = 1 ∧ ∀ r ∈ rows, r.child_columns = Json.null := by
  obtain ⟨rows, h1, h2, h3⟩ :=
    @C9_child_columns_always_null
      [("data", .obj [("column", .obj
        [("lineage", .arr [.obj [("name", .str "ID"),
          ("childColumns", .arr [.str "down.col"])]])])])]
      [("column", .obj [("lineage", .arr [.obj [("name", .str "ID"),
          ("childColumns", .arr [.str "down.col"])]])])]
      [("lineage", .arr [.obj [("name", .str "ID"),
          ("childColumns", .arr [.str "down.col"])]])]
      [.obj [("name", .str "ID"), ("childColumns", .arr [.str "down.col"])]]
      rfl rfl rfl
      (by intro m hm; fin_cases hm; rfl)
      (by
        intro fields hf
        fin_cases hf
        exact ⟨rfl, rfl⟩)
  exact ⟨rows, h1, by rw [h2]; rfl, h3⟩

/-- C10: a column-lineage response whose nested path
`data.column.lineage` is present but whose entry lacks the `name` key
(or carries a null value there) makes `parse_column_lineage_to_df`
raise an `AttributeError` instead of returning a table: the lowercasing
of the column name is applied unconditionally. -/
theorem C10_missing_name_raises :
    parse_column_lineage_to_df (.obj [("data", .obj [("column", .obj
        [("lineage", .arr [.obj [("parentColumns", .arr [])]])])])]) =
      .error "AttributeError: lower on a non-string name" ∧
    parse_column_lineage_to_df (.obj [("data", .obj [("column", .obj
        [("lineage", .arr [.obj [("name", .null),
          ("parentColumns", .arr [])]])])])]) =
      .error "AttributeError: lower on a non-string name" := ⟨rfl, rfl⟩

end Harvester

